import Mathlib

/-!
Verification of the SportsSignal quantitative core against its specification.

This file gives a shallow embedding, over exact rational and real
arithmetic, of the arithmetic core of the repository:

- app/services/prediction_engine.py : PredictionEngine._distribute_score
  (largest-remainder period allocation) and the score-derivation part of
  predict_game;
- app/services/elo_calculator.py : EloCalculator (expected score, K-factor,
  update_elo, season_reset, and the chronological replay of
  calculate_all_elos);
- app/services/rolling_stats_computer.py : the EWMA helper, the per-team
  history replay of compute_all, _compute_stats_from_history, and the
  football branch of the sport-specific statistics;
- app/services/feature_engineer.py : rolling-stats and legacy feature paths.

Python floats are modelled as exact rationals (or reals where transcendental
functions appear); the built-in round (round-half-to-even, optionally to a
number of decimal digits) is modelled by pyRound and pyRoundTo below.
-/

namespace SportsSignal

/-! ## Python rounding primitives

Python round() uses banker rounding (round half to even).  pyRound models
round(x) for a rational x; pyRoundTo models round(x, n) for n decimal
digits.  Mathlib round rounds half away from zero upward, so the half case
is treated separately.
-/

/-- Round half to even, as Python round(x) on an exact rational. -/
def pyRound (x : ℚ) : ℤ :=
  if Int.fract x = 1/2 then (if Even ⌊x⌋ then ⌊x⌋ else ⌊x⌋ + 1) else round x

/-- Round to n decimal digits, as Python round(x, n) on an exact rational. -/
def pyRoundTo (x : ℚ) (n : ℕ) : ℚ :=
  (pyRound (x * 10 ^ n) : ℚ) / 10 ^ n

theorem pyRound_intCast (n : ℤ) : pyRound (n : ℚ) = n := by
  unfold pyRound
  rw [Int.fract_intCast]
  norm_num

theorem abs_pyRound_sub (x : ℚ) : |(pyRound x : ℚ) - x| ≤ 1/2 := by
  unfold pyRound
  split
  · rename_i h
    have hx : x = (⌊x⌋ : ℚ) + 1/2 := by
      rw [← h]; exact (Int.floor_add_fract x).symm
    split
    · rw [abs_le]; constructor <;> linarith
    · rw [abs_le]
      constructor <;> (push_cast; linarith)
  · have := abs_sub_round x
    rw [abs_sub_comm] at this
    exact this

theorem pyRound_le (x : ℚ) : (pyRound x : ℚ) ≤ x + 1/2 := by
  have := abs_pyRound_sub x
  rw [abs_le] at this
  linarith [this.2]

theorem le_pyRound (x : ℚ) : x - 1/2 ≤ (pyRound x : ℚ) := by
  have := abs_pyRound_sub x
  rw [abs_le] at this
  linarith [this.1]

theorem pyRoundTo_le (x : ℚ) (n : ℕ) : pyRoundTo x n ≤ x + 1 / (2 * 10 ^ n) := by
  unfold pyRoundTo
  have hpow : (0:ℚ) < 10 ^ n := by positivity
  rw [div_le_iff₀ hpow]
  have := pyRound_le (x * 10 ^ n)
  calc (pyRound (x * 10 ^ n) : ℚ) ≤ x * 10 ^ n + 1/2 := this
    _ = (x + 1 / (2 * 10 ^ n)) * 10 ^ n := by field_simp; ring

theorem le_pyRoundTo (x : ℚ) (n : ℕ) : x - 1 / (2 * 10 ^ n) ≤ pyRoundTo x n := by
  unfold pyRoundTo
  have hpow : (0:ℚ) < 10 ^ n := by positivity
  rw [le_div_iff₀ hpow]
  have := le_pyRound (x * 10 ^ n)
  calc (x - 1 / (2 * 10 ^ n)) * 10 ^ n = x * 10 ^ n - 1/2 := by field_simp; ring
    _ ≤ (pyRound (x * 10 ^ n) : ℚ) := this

/-! ## PredictionEngine._distribute_score

Source: app/services/prediction_engine.py, lines 261 to 286.  The function
distributes a predicted total across periods by the largest-remainder
method in tenths of a point.  Python sorted(range(n), key, reverse=True) is
a stable descending sort; it is modelled by mergeSort with the reflexive
descending comparison, which keeps elements with equal keys in their
original (increasing index) order, so ties favour the earlier period.
The increment floored_tenths[i] += 1 is modelled by List.modify.
-/

/-- Value target = round(total, 1). -/
def ds_target (total : ℚ) : ℚ := pyRoundTo total 1

/-- Value target_tenths = round(target * 10). -/
def ds_targetTenths (total : ℚ) : ℤ := pyRound (ds_target total * 10)

/-- Value raw = the list of total * p for p in pcts. -/
def ds_raw (total : ℚ) (pcts : List ℚ) : List ℚ := pcts.map (fun p => total * p)

/-- Value floored_tenths = floor(round(v * 10, 6)) for v in raw. -/
def ds_flooredTenths (total : ℚ) (pcts : List ℚ) : List ℤ :=
  (ds_raw total pcts).map (fun v => ⌊pyRoundTo (v * 10) 6⌋)

/-- Value remainders = round(v * 10, 6) - floor(round(v * 10, 6)) for v in raw. -/
def ds_remainders (total : ℚ) (pcts : List ℚ) : List ℚ :=
  (ds_raw total pcts).map (fun v => pyRoundTo (v * 10) 6 - ⌊pyRoundTo (v * 10) 6⌋)

/-- Value shortfall = target_tenths - sum(floored_tenths). -/
def ds_shortfall (total : ℚ) (pcts : List ℚ) : ℤ :=
  ds_targetTenths total - (ds_flooredTenths total pcts).sum

/-- Value indices_by_remainder = sorted(range(n), key, reverse=True). -/
def ds_order (total : ℚ) (pcts : List ℚ) : List ℕ :=
  (List.range (ds_remainders total pcts).length).mergeSort
    (fun i j => decide ((ds_remainders total pcts).getD j 0
      ≤ (ds_remainders total pcts).getD i 0))

/-- Model of PredictionEngine._distribute_score(total, pcts). -/
def distribute_score (total : ℚ) (pcts : List ℚ) : List ℚ :=
  let distributed :=
    if 0 < ds_shortfall total pcts then
      ((ds_order total pcts).take (ds_shortfall total pcts).toNat).foldl
        (fun acc i => List.modify (fun v => v + 1) i acc)
        (ds_flooredTenths total pcts)
    else ds_flooredTenths total pcts
  distributed.map (fun v : ℤ => pyRoundTo ((v : ℚ) / 10) 1)

/-! ## EloCalculator  (app/services/elo_calculator.py)

The calculator is parametrised by the per-sport configuration values it
reads in its constructor (K_BASE, HOME_ADVANTAGE, season regression).
Ratings are reals; the power operator of the source is Real.rpow.
-/

/-- Per-sport Elo configuration from app/utils/sport_config.py. -/
structure EloParams where
  kBase : ℝ
  homeAdvantage : ℝ
  seasonRegression : ℝ

/-- NBA configuration: elo_k_base=20, elo_home_advantage=75,
elo_season_regression=0.75. -/
def nbaElo : EloParams := ⟨20, 75, 0.75⟩

/-- EloCalculator.calculate_expected(elo_a, elo_b), lines 27 to 29. -/
noncomputable def calculate_expected (eloA eloB : ℝ) : ℝ :=
  1 / (1 + (10 : ℝ) ^ ((eloB - eloA) / 400))

/-- EloCalculator.k_factor(mov, elo_diff), lines 23 to 25. -/
noncomputable def k_factor (p : EloParams) (mov : ℤ) (eloDiff : ℝ) : ℝ :=
  p.kBase * (((|mov| : ℤ) : ℝ) + 3) ^ (0.8 : ℝ) / (7.5 + 0.006 * |eloDiff|)

/-- EloCalculator.update_elo, lines 31 to 55. -/
noncomputable def update_elo (p : EloParams) (homeElo awayElo : ℝ)
    (homeScore awayScore : ℤ) : ℝ × ℝ :=
  let expectedHome := calculate_expected (homeElo + p.homeAdvantage) awayElo
  let expectedAway := calculate_expected awayElo (homeElo + p.homeAdvantage)
  let homeWon : ℝ := if awayScore < homeScore then 1 else 0
  let mov := homeScore - awayScore
  let eloDiff := homeElo - awayElo
  let k := k_factor p mov eloDiff
  (homeElo + k * (homeWon - expectedHome),
   awayElo + k * ((1 - homeWon) - expectedAway))

/-- EloCalculator.season_reset(elo), lines 57 to 59. -/
def season_reset (p : EloParams) (elo : ℝ) : ℝ :=
  p.seasonRegression * elo + (1 - p.seasonRegression) * 1500

/-- Completed-game record.  Lists of these stand for the result set of the
date-ascending query on games with status Final used by both replays (the
status filter is part of the SQL query); the feature-engineer queries also
filter on the status field, so it is carried here. -/
structure GameRec where
  id : ℕ
  season : ℤ
  date : ℤ
  homeTeamId : ℕ
  awayTeamId : ℕ
  homeScore : Option ℤ
  awayScore : Option ℤ
  status : String
deriving DecidableEq

/-- One TeamEloHistory row (team_id, game_id, game_date, elo_before,
elo_after). -/
structure EloHistEntry where
  teamId : ℕ
  gameId : ℕ
  gameDate : ℤ
  eloBefore : ℝ
  eloAfter : ℝ

/-- Replay state of calculate_all_elos.  The elos defaultdict is modelled
as a total function with default 1500: reading a missing key in the source
inserts the default value, which does not change any observable rating, and
season_reset fixes 1500 exactly, so regressing only the tracked keys agrees
pointwise with regressing the whole function. -/
structure EloState where
  elos : ℕ → ℝ
  currentSeason : Option ℤ
  history : List EloHistEntry

/-- Initial replay state: every team at INITIAL_ELO = 1500, no season seen,
history cleared. -/
def eloInit : EloState := ⟨fun _ => 1500, none, []⟩

/-- Season-boundary handling at the top of the replay loop (lines 115 to
125): if a current season is set and the season of the game differs, every
rating is regressed; the season tracker then takes the value of the current
game.  This happens before the missing-score check of line 130. -/
def applySeasonBoundary (p : EloParams) (st : EloState) (g : GameRec) : EloState :=
  let elos :=
    match st.currentSeason with
    | some s => if g.season ≠ s then fun t => season_reset p (st.elos t) else st.elos
    | none => st.elos
  { elos := elos, currentSeason := some g.season, history := st.history }

/-- Body of the replay loop of calculate_all_elos (lines 114 to 161):
season boundary, then skip when either score is missing, else update both
ratings and append the two history rows.  The two dict writes are ordered
home first and away second, so for a degenerate game whose team ids
coincide the away write wins, as in the source. -/
noncomputable def eloStep (p : EloParams) (st : EloState) (g : GameRec) : EloState :=
  let st1 := applySeasonBoundary p st g
  match g.homeScore, g.awayScore with
  | some hs, some as_ =>
    let homeEloBefore := st1.elos g.homeTeamId
    let awayEloBefore := st1.elos g.awayTeamId
    let upd := update_elo p homeEloBefore awayEloBefore hs as_
    { elos := fun t =>
        if t = g.awayTeamId then upd.2
        else if t = g.homeTeamId then upd.1
        else st1.elos t,
      currentSeason := st1.currentSeason,
      history := st1.history ++
        [⟨g.homeTeamId, g.id, g.date, homeEloBefore, upd.1⟩,
         ⟨g.awayTeamId, g.id, g.date, awayEloBefore, upd.2⟩] }
  | _, _ => st1

/-- EloCalculator.calculate_all_elos as a chronological replay over the
completed games of one sport. -/
noncomputable def calculate_all_elos (p : EloParams) (games : List GameRec) : EloState :=
  games.foldl (eloStep p) eloInit

/-! ## PredictionEngine.predict_game score derivation
(app/services/prediction_engine.py, lines 184 to 206)

Python round on a float is round half to even; pyRoundR is its real
counterpart.  Raw regressor outputs and the classifier probability enter as
unconstrained reals.
-/

/-- Round half to even on a real, as Python round(x) with no digits. -/
noncomputable def pyRoundR (x : ℝ) : ℤ :=
  if Int.fract x = 1/2 then (if Even ⌊x⌋ then ⌊x⌋ else ⌊x⌋ + 1) else round x

/-- Value predicted_total = max(raw_home, 0.0) + max(raw_away, 0.0), line 186. -/
noncomputable def predicted_total_raw (rawHome rawAway : ℝ) : ℝ :=
  max rawHome 0 + max rawAway 0

/-- Value clamped_prob = max(0.01, min(0.99, home_win_prob)), line 189. -/
noncomputable def clamped_prob (p : ℝ) : ℝ := max 0.01 (min 0.99 p)

/-- Value predicted_spread = spread_calibration * log(p / (1 - p)), lines
190 to 191. -/
noncomputable def predicted_spread_raw (cal p : ℝ) : ℝ :=
  cal * Real.log (clamped_prob p / (1 - clamped_prob p))

/-- Value round(max((total + spread) / 2, 0)), lines 193 and 196. -/
noncomputable def rounded_home (cal rawHome rawAway p : ℝ) : ℤ :=
  pyRoundR (max ((predicted_total_raw rawHome rawAway
    + predicted_spread_raw cal p) / 2) 0)

/-- Value round(max((total - spread) / 2, 0)), lines 194 and 197. -/
noncomputable def rounded_away (cal rawHome rawAway p : ℝ) : ℤ :=
  pyRoundR (max ((predicted_total_raw rawHome rawAway
    - predicted_spread_raw cal p) / 2) 0)

/-- Final integer scores together with the spread and total recomputed from
them (lines 196 to 206). -/
structure ScorePrediction where
  home : ℤ
  away : ℤ
  spread : ℝ
  total : ℝ

/-- Score derivation of predict_game: rounding, favourite bump, and the
recomputation of spread and total from the final integers. -/
noncomputable def derive_scores (cal rawHome rawAway p : ℝ) : ScorePrediction :=
  let h0 := rounded_home cal rawHome rawAway p
  let a0 := rounded_away cal rawHome rawAway p
  let ha :=
    if 0.5 ≤ p then (if h0 ≤ a0 then (a0 + 1, a0) else (h0, a0))
    else (if a0 ≤ h0 then (h0, h0 + 1) else (h0, a0))
  { home := ha.1
    away := ha.2
    spread := ((ha.1 - ha.2 : ℤ) : ℝ)
    total := ((ha.1 + ha.2 : ℤ) : ℝ) }

/-! ## RollingStatsComputer  (app/services/rolling_stats_computer.py)

The claims touching this component concern the universal statistics, the
missing-score skip, the provenance of snapshot inputs, and the football
branch of the sport-specific statistics, so the sport parameter ranges over
the two gridiron sports; both take the same branch in
_compute_sport_specific, and both receive the opp_turnovers injection of
lines 140 to 142.  Boxscore stat maps are association lists of integer
counting stats read with the Python dict get default.
-/

inductive Sport
  | NFL
  | NCAAF
deriving DecidableEq

/-- Python b.get(key, d) on a boxscore stat map. -/
def dictGetI (b : List (String × ℤ)) (k : String) (d : ℤ) : ℤ :=
  match b.find? (fun kv => kv.1 == k) with
  | some kv => kv.2
  | none => d

/-- Python dict assignment b[key] = v, modelled up to lookup semantics. -/
def dictSetI (b : List (String × ℤ)) (k : String) (v : ℤ) : List (String × ℤ) :=
  b.filter (fun kv => kv.1 != k) ++ [(k, v)]

/-- One stored team_history entry (lines 144 to 164). -/
structure HistEntry where
  gameId : ℕ
  gameDate : ℤ
  isHome : Bool
  scoreFor : ℤ
  scoreAgainst : ℤ
  won : Bool
  boxscore : List (String × ℤ)
  margin : ℤ
deriving DecidableEq

/-- Loop of the _ewma helper over a newest-first list, carrying
(weight, total, weight_sum) exactly as the source does. -/
def ewmaFold (decay : ℚ) (l : List ℚ) : ℚ × ℚ × ℚ :=
  l.foldl (fun acc v => (acc.1 * decay, acc.2.1 + acc.1 * v, acc.2.2 + acc.1))
    (1, 0, 0)

/-- Module helper _ewma(values, decay=0.95), lines 27 to 38; values is
oldest first and the loop runs over reversed(values). -/
def ewma (values : List ℚ) (decay : ℚ := 19/20) : ℚ :=
  if values = [] then 0
  else
    let f := ewmaFold decay values.reverse
    if 0 < f.2.2 then f.2.1 / f.2.2 else 0

/-- Closed form of the same average: the value i places before the most
recent gets weight decay^i, normalised by the sum of the weights. -/
def specEwma (values : List ℚ) (decay : ℚ) : ℚ :=
  if values = [] then 0
  else ((values.reverse.enum.map (fun iv => decay ^ iv.1 * iv.2)).sum)
    / (((List.range values.length).map (fun i => decay ^ i)).sum)

/-- Horner form of the decayed weighted sum of a newest-first list, used to
relate the _ewma loop to its closed form. -/
def decayWeighted (decay : ℚ) : List ℚ → ℚ
  | [] => 0
  | v :: rest => v + decay * decayWeighted decay rest

/-- Horner form of the decayed weight sum of a newest-first list. -/
def decayWeightSum (decay : ℚ) : List ℚ → ℚ
  | [] => 0
  | _ :: rest => 1 + decay * decayWeightSum decay rest

/-- Streak loop of _compute_stats_from_history, lines 212 to 224. -/
def streakLoop : List HistEntry → ℤ → ℤ
  | [], s => s
  | e :: rest, s =>
    if e.won then (if 0 ≤ s then streakLoop rest (s + 1) else s)
    else (if s ≤ 0 then streakLoop rest (s - 1) else s)

/-- Signed streak over the full history, most recent game first. -/
def streakOf (history : List HistEntry) : ℤ := streakLoop history.reverse 0

/-- Python history[-n:]. -/
def lastN {α : Type} (n : ℕ) (l : List α) : List α := l.drop (l.length - n)

/-- Per-game yards-per-play values (lines 536 to 542). -/
def yppVals (boxes : List (List (String × ℤ))) : List ℚ :=
  boxes.map (fun b =>
    let totalYards := dictGetI b "total_yards" 0
    let passAtt := dictGetI b "pass_attempts" 0
    let rushAtt := dictGetI b "rushing_carries" 0
    let totalPlays := passAtt + rushAtt
    if 0 < totalPlays then (totalYards : ℚ) / (totalPlays : ℚ) else 0)

/-- Per-game turnover-margin values (lines 544 to 551): the direct
difference when the stored opponent turnovers are positive, else the
negative own turnovers. -/
def tovMarginVals (boxes : List (List (String × ℤ))) : List ℚ :=
  boxes.map (fun b =>
    let turnovers := dictGetI b "turnovers" 0
    let oppTurnovers := dictGetI b "opp_turnovers" 0
    if 0 < oppTurnovers then ((oppTurnovers - turnovers : ℤ) : ℚ)
    else ((-turnovers : ℤ) : ℚ))

/-- Per-game third-down conversion rates (lines 553 to 556). -/
def thirdDownVals (boxes : List (List (String × ℤ))) : List ℚ :=
  boxes.map (fun b =>
    let conv := dictGetI b "third_down_conv" 0
    let att := dictGetI b "third_down_att" 0
    if 0 < att then (conv : ℚ) / (att : ℚ) else 0)

/-- RollingStatsComputer._compute_football_stats (lines 522 to 562). -/
def compute_football_stats (boxes : List (List (String × ℤ))) :
    List (String × ℚ) :=
  if boxes = [] then
    [("yards_per_play_10", 0), ("tov_margin_10", 0), ("third_down_pct_10", 0)]
  else
    [("yards_per_play_10", ewma (yppVals boxes)),
     ("tov_margin_10", ewma (tovMarginVals boxes)),
     ("third_down_pct_10", ewma (thirdDownVals boxes))]

/-- RollingStatsComputer._compute_sport_specific (lines 250 to 266) for the
gridiron sports: boxes collects the truthy (non-empty) boxscores of the
last 10 games. -/
def compute_sport_specific (last10 : List HistEntry) (sport : Sport) :
    List (String × ℚ) :=
  let boxes := (last10.filter (fun g => !(g.boxscore.isEmpty))).map
    (fun g => g.boxscore)
  match sport with
  | Sport.NFL => compute_football_stats boxes
  | Sport.NCAAF => compute_football_stats boxes

/-- Universal rolling statistics: the keys written by
_compute_stats_from_history (lines 226 to 237), the sport-specific map, and
the elo key written by compute_all line 112. -/
structure RollingStats where
  win_pct_10 : ℚ
  win_pct_20 : ℚ
  ppg_10 : ℚ
  ppg_20 : ℚ
  papg_10 : ℚ
  papg_20 : ℚ
  margin_avg_10 : ℚ
  home_win_pct_10 : ℚ
  away_win_pct_10 : ℚ
  streak : ℤ
  elo : ℚ
  sportStats : List (String × ℚ)
deriving DecidableEq

/-- Rounding pass of lines 243 to 246: every float value is rounded to 6
decimals; the integer streak is left alone.  The elo key is written by the
caller after this pass (compute_all line 112), so it is not rounded. -/
def roundStats (s : RollingStats) : RollingStats :=
  { win_pct_10 := pyRoundTo s.win_pct_10 6
    win_pct_20 := pyRoundTo s.win_pct_20 6
    ppg_10 := pyRoundTo s.ppg_10 6
    ppg_20 := pyRoundTo s.ppg_20 6
    papg_10 := pyRoundTo s.papg_10 6
    papg_20 := pyRoundTo s.papg_20 6
    margin_avg_10 := pyRoundTo s.margin_avg_10 6
    home_win_pct_10 := pyRoundTo s.home_win_pct_10 6
    away_win_pct_10 := pyRoundTo s.away_win_pct_10 6
    streak := s.streak
    elo := s.elo
    sportStats := s.sportStats.map (fun kv => (kv.1, pyRoundTo kv.2 6)) }

/-- RollingStatsComputer._default_stats (lines 564 to 596) for the gridiron
sports; its elo default 1500 is overwritten by compute_all line 112. -/
def default_stats (sport : Sport) : RollingStats :=
  { win_pct_10 := 1/2
    win_pct_20 := 1/2
    ppg_10 := 0
    ppg_20 := 0
    papg_10 := 0
    papg_20 := 0
    margin_avg_10 := 0
    home_win_pct_10 := 1/2
    away_win_pct_10 := 1/2
    streak := 0
    elo := 1500
    sportStats :=
      match sport with
      | Sport.NFL =>
        [("yards_per_play_10", 0), ("tov_margin_10", 0), ("third_down_pct_10", 0)]
      | Sport.NCAAF =>
        [("yards_per_play_10", 0), ("tov_margin_10", 0), ("third_down_pct_10", 0)] }

/-- RollingStatsComputer._compute_stats_from_history (lines 181 to 248).
The elo parameter of the source is unused in the body; the isHome parameter
is likewise unused, exactly as in the source.  The default-stats early
return (line 189) bypasses the rounding pass, as in the source. -/
def compute_stats_from_history (history : List HistEntry) (sport : Sport)
    (isHome : Bool) : RollingStats :=
  if history = [] then default_stats sport
  else
    let last10 := lastN 10 history
    let last20 := lastN 20 history
    let wins10 := last10.map (fun g => if g.won then (1:ℚ) else 0)
    let wins20 := last20.map (fun g => if g.won then (1:ℚ) else 0)
    let ppg10 := last10.map (fun g => (g.scoreFor : ℚ))
    let ppg20 := last20.map (fun g => (g.scoreFor : ℚ))
    let papg10 := last10.map (fun g => (g.scoreAgainst : ℚ))
    let papg20 := last20.map (fun g => (g.scoreAgainst : ℚ))
    let margin10 := last10.map (fun g => (g.margin : ℚ))
    let homeGames10 := last10.filter (fun g => g.isHome)
    let awayGames10 := last10.filter (fun g => !g.isHome)
    let homeWins10 := (homeGames10.filter (fun g => g.won)).length
    let awayWins10 := (awayGames10.filter (fun g => g.won)).length
    roundStats
      { win_pct_10 := ewma wins10
        win_pct_20 := ewma wins20
        ppg_10 := ewma ppg10
        ppg_20 := ewma ppg20
        papg_10 := ewma papg10
        papg_20 := ewma papg20
        margin_avg_10 := ewma margin10
        home_win_pct_10 :=
          if homeGames10.isEmpty then 1/2
          else (homeWins10 : ℚ) / (homeGames10.length : ℚ)
        away_win_pct_10 :=
          if awayGames10.isEmpty then 1/2
          else (awayWins10 : ℚ) / (awayGames10.length : ℚ)
        streak := streakOf history
        elo := 1500
        sportStats := compute_sport_specific last10 sport }

/-- Inputs preloaded by compute_all before the replay: boxscore stat maps
keyed by (game, team) with default empty (lines 70 to 76), and elo_before
values keyed by (team, game) (lines 78 to 90). -/
structure RollingEnv where
  boxscores : ℕ → ℕ → List (String × ℤ)
  eloMap : ℕ → ℕ → Option ℚ

/-- One team_rolling_stats row; histUsed records the history list the stats
were computed from, making the provenance of every snapshot explicit (the
stored stats are a function of histUsed, the sport and the stored elo). -/
structure SnapRow where
  teamId : ℕ
  gameId : ℕ
  asOfDate : ℤ
  gamesPlayed : ℕ
  histUsed : List HistEntry
  stats : RollingStats
deriving DecidableEq

/-- Replay state of compute_all: team_history as a total map from team id
to the list of prior games (defaultdict list), and the snapshot rows
written so far. -/
structure RollState where
  hist : ℕ → List HistEntry
  snaps : List SnapRow

/-- Initial replay state: empty histories, cleared snapshot table. -/
def rollingInit : RollState := ⟨fun _ => [], []⟩

/-- Body of the replay loop of compute_all (lines 97 to 164): games missing
a score are skipped before anything is computed or stored; otherwise a
snapshot row is stored for both teams from the history accumulated so far,
and only then is the game appended to both histories, with the opponent
turnovers injected (both modelled sports are gridiron).  The upsert is an
append here: within one game the two keys differ unless the team ids
coincide, in which case the later row is the one the upsert keeps. -/
def rollingStep (env : RollingEnv) (sport : Sport) (st : RollState)
    (g : GameRec) : RollState :=
  match g.homeScore, g.awayScore with
  | some hs, some as_ =>
    let mkRow := fun (teamId : ℕ) (isHome : Bool) =>
      let history := st.hist teamId
      let eloBefore := (env.eloMap teamId g.id).getD 1500
      let stats0 := compute_stats_from_history history sport isHome
      SnapRow.mk teamId g.id g.date history.length history
        { stats0 with elo := eloBefore }
    let homeRow := mkRow g.homeTeamId true
    let awayRow := mkRow g.awayTeamId false
    let homeBox := env.boxscores g.id g.homeTeamId
    let awayBox := env.boxscores g.id g.awayTeamId
    let homeBoxOpp := dictSetI homeBox "opp_turnovers" (dictGetI awayBox "turnovers" 0)
    let awayBoxOpp := dictSetI awayBox "opp_turnovers" (dictGetI homeBox "turnovers" 0)
    let homeEntry : HistEntry :=
      ⟨g.id, g.date, true, hs, as_, decide (as_ < hs), homeBoxOpp, hs - as_⟩
    let awayEntry : HistEntry :=
      ⟨g.id, g.date, false, as_, hs, decide (hs < as_), awayBoxOpp, as_ - hs⟩
    { hist := fun t =>
        if t = g.awayTeamId then
          (if t = g.homeTeamId then st.hist t ++ [homeEntry] else st.hist t)
            ++ [awayEntry]
        else if t = g.homeTeamId then st.hist t ++ [homeEntry]
        else st.hist t,
      snaps := st.snaps ++ [homeRow, awayRow] }
  | _, _ => st

/-- RollingStatsComputer.compute_all as a chronological replay over the
completed games of one sport. -/
def rolling_compute_all (env : RollingEnv) (sport : Sport)
    (games : List GameRec) : RollState :=
  games.foldl (rollingStep env sport) rollingInit

/-! ## FeatureEngineer  (app/services/feature_engineer.py)

The database visible to the feature engineer: game rows, team_rolling_stats
rows, and team rows with their current elo.  SQL order by date descending
leaves the relative order of equal dates unspecified; the model uses a
stable descending sort over the stored row order, one of the admissible
orders.
-/

/-- One team_rolling_stats row as read back by the feature engineer; its
stats column is the stored JSON map. -/
structure RollingRow where
  teamId : ℕ
  gameId : ℕ
  asOfDate : ℤ
  gamesPlayed : ℕ
  stats : List (String × ℚ)
deriving DecidableEq

/-- Python stats.get(key, d) over a stored snapshot stat map. -/
def dictGetQ (b : List (String × ℚ)) (k : String) (d : ℚ) : ℚ :=
  match b.find? (fun kv => kv.1 == k) with
  | some kv => kv.2
  | none => d

/-- Database state consumed by FeatureEngineer: games, rolling-stats rows,
and (team id, current_elo) pairs. -/
structure FEDb where
  games : List GameRec
  rolling : List RollingRow
  teams : List (ℕ × ℚ)

/-- Stable date-descending sort standing for order_by(game_date.desc()). -/
def sortByDateDesc (gs : List GameRec) : List GameRec :=
  gs.mergeSort (fun g1 g2 => decide (g2.date ≤ g1.date))

/-- FeatureEngineer._get_rolling_stats (lines 185 to 218): direct lookup of
the row stored for the game, else the latest row strictly before the date.
The fallback keeps the earliest stored row among equal dates, one of the
orders the unconstrained SQL limit 1 may return. -/
def get_rolling_stats (db : FEDb) (teamId : ℕ) (beforeDate : ℤ)
    (gameId : Option ℕ) : Option RollingRow :=
  let direct :=
    match gameId with
    | some gid => db.rolling.find? (fun r => r.teamId == teamId && r.gameId == gid)
    | none => none
  match direct with
  | some row => some row
  | none =>
    (db.rolling.filter (fun (r : RollingRow) =>
        r.teamId == teamId && decide (r.asOfDate < beforeDate))).foldl
      (fun (acc : Option RollingRow) (r : RollingRow) =>
        match acc with
        | none => some r
        | some a => if a.asOfDate < r.asOfDate then some r else acc)
      none

/-- FeatureEngineer._get_team_last_n_games (lines 320 to 337). -/
def get_team_last_n_games (db : FEDb) (teamId : ℕ) (n : ℕ) (beforeDate : ℤ) :
    List GameRec :=
  (sortByDateDesc (db.games.filter (fun g =>
    (g.homeTeamId == teamId || g.awayTeamId == teamId)
      && g.status == "Final" && decide (g.date < beforeDate)))).take n

/-- FeatureEngineer._get_h2h_games (lines 339 to 356). -/
def get_h2h_games (db : FEDb) (teamA teamB : ℕ) (n : ℕ) (beforeDate : ℤ) :
    List GameRec :=
  (sortByDateDesc (db.games.filter (fun g =>
    ((g.homeTeamId == teamA && g.awayTeamId == teamB)
      || (g.homeTeamId == teamB && g.awayTeamId == teamA))
      && g.status == "Final" && decide (g.date < beforeDate)))).take n

/-- FeatureEngineer._calc_rest_days_from_dates (lines 220 to 227); dates
are calendar-day numbers, so the timedelta day count is their difference. -/
def calc_rest_days_from_dates (gameDate : ℤ) (lastGameDate : Option ℤ) : ℚ :=
  match lastGameDate with
  | none => 3
  | some d => min ((gameDate - d : ℤ) : ℚ) 7

/-- FeatureEngineer._calc_rest_days (lines 394 to 401): days since the
first (most recent) game of the date-descending list, capped at 7; 3.0 when
the list is empty. -/
def calc_rest_days (gameDate : ℤ) (games : List GameRec) : ℚ :=
  match games with
  | [] => 3
  | mostRecent :: _ => min ((gameDate - mostRecent.date : ℤ) : ℚ) 7

/-- FeatureEngineer._calc_win_pct (lines 358 to 368), with the null-score
reads g.home_score or 0 modelled by Option.getD 0. -/
def calc_win_pct (teamId : ℕ) (games : List GameRec) : ℚ :=
  if games.isEmpty then 1/2
  else
    let wins := (games.filter (fun g =>
      (g.homeTeamId == teamId && decide ((g.awayScore.getD 0) < (g.homeScore.getD 0)))
        || (g.awayTeamId == teamId
          && decide ((g.homeScore.getD 0) < (g.awayScore.getD 0))))).length
    (wins : ℚ) / (games.length : ℚ)

/-- FeatureEngineer._calc_ppg (lines 370 to 380). -/
def calc_ppg (teamId : ℕ) (games : List GameRec) (defaultPpg : ℚ) : ℚ :=
  if games.isEmpty then defaultPpg
  else ((games.map (fun g =>
    if g.homeTeamId == teamId then ((g.homeScore.getD 0 : ℤ) : ℚ)
    else ((g.awayScore.getD 0 : ℤ) : ℚ))).sum) / (games.length : ℚ)

/-- FeatureEngineer._calc_papg (lines 382 to 392). -/
def calc_papg (teamId : ℕ) (games : List GameRec) (defaultPpg : ℚ) : ℚ :=
  if games.isEmpty then defaultPpg
  else ((games.map (fun g =>
    if g.homeTeamId == teamId then ((g.awayScore.getD 0 : ℤ) : ℚ)
    else ((g.homeScore.getD 0 : ℤ) : ℚ))).sum) / (games.length : ℚ)

/-- Head-to-head share of the last 5 meetings won by the home side of the
target game (lines 145 to 154, repeated at lines 270 to 279). -/
def h2h_home_share (db : FEDb) (game : GameRec) : ℚ :=
  let h2h := get_h2h_games db game.homeTeamId game.awayTeamId 5 game.date
  if h2h.isEmpty then 1/2
  else
    let wins := (h2h.filter (fun g =>
      (g.homeTeamId == game.homeTeamId
        && decide ((g.awayScore.getD 0) < (g.homeScore.getD 0)))
        || (g.awayTeamId == game.homeTeamId
          && decide ((g.homeScore.getD 0) < (g.awayScore.getD 0))))).length
    (wins : ℚ) / (max h2h.length 1 : ℚ)

/-- Base feature mapping produced by both feature paths.  The per-sport
extension keys (lines 173 to 181 and 299) do not include the rest-day or
count-gated behaviour these claims concern and are not modelled. -/
structure BaseFeatures where
  elo_diff : ℚ
  home_win_pct_10 : ℚ
  away_win_pct_10 : ℚ
  home_ppg_20 : ℚ
  away_ppg_20 : ℚ
  home_papg_20 : ℚ
  away_papg_20 : ℚ
  rest_days_home : ℚ
  rest_days_away : ℚ
  h2h_home_wins_last5 : ℚ
  home_streak : ℚ
  away_streak : ℚ
  home_margin_avg_10 : ℚ
  away_margin_avg_10 : ℚ
deriving DecidableEq

/-- FeatureEngineer._compute_features_from_rolling_stats (lines 125 to
183): resolve both snapshots, require games_played of at least 3 on both
sides, and read every feature from the stored maps; the rest-day features
come from the resolved snapshot as-of dates (lines 140 to 142). -/
def compute_features_from_rolling_stats (db : FEDb) (game : GameRec) :
    Option BaseFeatures :=
  match get_rolling_stats db game.homeTeamId game.date (some game.id),
        get_rolling_stats db game.awayTeamId game.date (some game.id) with
  | some homeStats, some awayStats =>
    if homeStats.gamesPlayed < 3 ∨ awayStats.gamesPlayed < 3 then none
    else
      let hs := homeStats.stats
      let as_ := awayStats.stats
      some
        { elo_diff := dictGetQ hs "elo" 1500 - dictGetQ as_ "elo" 1500
          home_win_pct_10 := dictGetQ hs "win_pct_10" (1/2)
          away_win_pct_10 := dictGetQ as_ "win_pct_10" (1/2)
          home_ppg_20 := dictGetQ hs "ppg_20" 0
          away_ppg_20 := dictGetQ as_ "ppg_20" 0
          home_papg_20 := dictGetQ hs "papg_20" 0
          away_papg_20 := dictGetQ as_ "papg_20" 0
          rest_days_home :=
            calc_rest_days_from_dates game.date (some homeStats.asOfDate)
          rest_days_away :=
            calc_rest_days_from_dates game.date (some awayStats.asOfDate)
          h2h_home_wins_last5 := h2h_home_share db game
          home_streak := dictGetQ hs "streak" 0
          away_streak := dictGetQ as_ "streak" 0
          home_margin_avg_10 := dictGetQ hs "margin_avg_10" 0
          away_margin_avg_10 := dictGetQ as_ "margin_avg_10" 0 }
  | _, _ => none

/-- FeatureEngineer._compute_features_legacy (lines 231 to 300), in the
sport-aware mode, whose returned mapping uses the rolling-era keys and
zeroes the streak and margin features. -/
def compute_features_legacy (db : FEDb) (defaultPpg : ℚ) (game : GameRec) :
    Option BaseFeatures :=
  match db.teams.find? (fun t => t.1 == game.homeTeamId),
        db.teams.find? (fun t => t.1 == game.awayTeamId) with
  | some homeTeam, some awayTeam =>
    let homeLast10 := get_team_last_n_games db game.homeTeamId 10 game.date
    let awayLast10 := get_team_last_n_games db game.awayTeamId 10 game.date
    if homeLast10.length < 3 ∨ awayLast10.length < 3 then none
    else
      let homeLast20 := get_team_last_n_games db game.homeTeamId 20 game.date
      let awayLast20 := get_team_last_n_games db game.awayTeamId 20 game.date
      some
        { elo_diff := homeTeam.2 - awayTeam.2
          home_win_pct_10 := calc_win_pct game.homeTeamId homeLast10
          away_win_pct_10 := calc_win_pct game.awayTeamId awayLast10
          home_ppg_20 := calc_ppg game.homeTeamId homeLast20 defaultPpg
          away_ppg_20 := calc_ppg game.awayTeamId awayLast20 defaultPpg
          home_papg_20 := calc_papg game.homeTeamId homeLast20 defaultPpg
          away_papg_20 := calc_papg game.awayTeamId awayLast20 defaultPpg
          rest_days_home := calc_rest_days game.date homeLast10
          rest_days_away := calc_rest_days game.date awayLast10
          h2h_home_wins_last5 := h2h_home_share db game
          home_streak := 0
          away_streak := 0
          home_margin_avg_10 := 0
          away_margin_avg_10 := 0 }
  | _, _ => none

/-- FeatureEngineer.compute_features (lines 109 to 123) with a sport set:
the rolling-stats path first, the legacy fallback when it yields nothing. -/
def compute_features (db : FEDb) (defaultPpg : ℚ) (game : GameRec) :
    Option BaseFeatures :=
  match compute_features_from_rolling_stats db game with
  | some f => some f
  | none => compute_features_legacy db defaultPpg game

/-! Helper lemmas about list sums used in the largest-remainder proof. -/

theorem listSum_intCast {α : Type} (F : α → ℤ) (l : List α) :
    (((l.map F).sum : ℤ) : ℚ) = (l.map (fun x => ((F x) : ℚ))).sum := by
  induction l with
  | nil => simp
  | cons a t ih => simp [ih]

theorem listSum_affine (l : List ℚ) (a c : ℚ) :
    (l.map (fun p => a * p + c)).sum = a * l.sum + l.length * c := by
  induction l with
  | nil => simp
  | cons x t ih => simp [ih]; ring

theorem sum_modify_add_one (l : List ℤ) (i : ℕ) (hi : i < l.length) :
    (List.modify (fun v => v + 1) i l).sum = l.sum + 1 := by
  induction l generalizing i with
  | nil => simp at hi
  | cons a t ih =>
    cases i with
    | zero => simp [List.modify]; ring
    | succ j =>
      have hj : j < t.length := by simpa using hi
      have hstep : List.modify (fun v => v + 1) (j + 1) (a :: t)
          = a :: List.modify (fun v => v + 1) j t := by
        simp [List.modify]
      rw [hstep]
      simp [ih j hj]
      ring

theorem sum_foldl_modify (idxs : List ℕ) (l : List ℤ)
    (h : ∀ i ∈ idxs, i < l.length) :
    (idxs.foldl (fun acc i => List.modify (fun v => v + 1) i acc) l).sum
      = l.sum + idxs.length := by
  induction idxs generalizing l with
  | nil => simp
  | cons i t ih =>
    have hi : i < l.length := h i (by simp)
    have ht : ∀ j ∈ t, j < (List.modify (fun v => v + 1) i l).length := by
      intro j hj
      rw [List.length_modify]
      exact h j (by simp [hj])
    simp only [List.foldl_cons]
    rw [ih _ ht, sum_modify_add_one l i hi]
    simp
    ring

theorem ds_flooredTenths_eq (total : ℚ) (pcts : List ℚ) :
    ds_flooredTenths total pcts
      = pcts.map (fun p => ⌊pyRoundTo (total * p * 10) 6⌋) := by
  unfold ds_flooredTenths ds_raw
  rw [List.map_map]
  rfl

theorem ds_targetTenths_eq (total : ℚ) :
    ds_targetTenths total = pyRound (total * 10) := by
  have h : ds_target total * 10 = ((pyRound (total * 10) : ℤ) : ℚ) := by
    unfold ds_target pyRoundTo
    rw [pow_one, div_mul_cancel₀]
    norm_num
  unfold ds_targetTenths
  rw [h, pyRound_intCast]

theorem ds_floored_bounds (total p : ℚ) :
    total * p * 10 - 1 - 1/2000000 ≤ (⌊pyRoundTo (total * p * 10) 6⌋ : ℚ) ∧
    (⌊pyRoundTo (total * p * 10) 6⌋ : ℚ) ≤ total * p * 10 + 1/2000000 := by
  have h1 := le_pyRoundTo (total * p * 10) 6
  have h2 := pyRoundTo_le (total * p * 10) 6
  have h3 := Int.sub_one_lt_floor (pyRoundTo (total * p * 10) 6)
  have h4 := Int.floor_le (pyRoundTo (total * p * 10) 6)
  norm_num at h1 h2
  constructor <;> linarith

theorem ds_floored_sum_bounds (total : ℚ) (pcts : List ℚ) (hsum : pcts.sum = 1) :
    10 * total - pcts.length * (1 + 1/2000000)
        ≤ ((ds_flooredTenths total pcts).sum : ℚ) ∧
    ((ds_flooredTenths total pcts).sum : ℚ)
        ≤ 10 * total + pcts.length * (1/2000000) := by
  have hcast : ((ds_flooredTenths total pcts).sum : ℚ)
      = (pcts.map (fun p => (⌊pyRoundTo (total * p * 10) 6⌋ : ℚ))).sum := by
    rw [ds_flooredTenths_eq, listSum_intCast]
  constructor
  · rw [hcast]
    have h := List.sum_le_sum (l := pcts)
      (f := fun p => (10 * total) * p + (-1 - 1/2000000))
      (g := fun p => (⌊pyRoundTo (total * p * 10) 6⌋ : ℚ))
      (fun p _ => by
        have := (ds_floored_bounds total p).1
        calc (10 * total) * p + (-1 - 1/2000000)
            = total * p * 10 - 1 - 1/2000000 := by ring
          _ ≤ _ := this)
    rw [listSum_affine, hsum] at h
    calc 10 * total - pcts.length * (1 + 1/2000000)
        = 10 * total * 1 + pcts.length * (-1 - 1/2000000) := by ring
      _ ≤ _ := h
  · rw [hcast]
    have h := List.sum_le_sum (l := pcts)
      (f := fun p => (⌊pyRoundTo (total * p * 10) 6⌋ : ℚ))
      (g := fun p => (10 * total) * p + 1/2000000)
      (fun p _ => by
        have := (ds_floored_bounds total p).2
        calc (⌊pyRoundTo (total * p * 10) 6⌋ : ℚ)
            ≤ total * p * 10 + 1/2000000 := this
          _ = (10 * total) * p + 1/2000000 := by ring)
    rw [listSum_affine, hsum] at h
    calc ((pcts.map (fun p => (⌊pyRoundTo (total * p * 10) 6⌋ : ℚ))).sum)
        ≤ 10 * total * 1 + pcts.length * (1/2000000) := h
      _ = 10 * total + pcts.length * (1/2000000) := by ring

theorem ds_shortfall_bounds (total : ℚ) (pcts : List ℚ)
    (hsum : pcts.sum = 1) (hlen : pcts.length ≤ 100000) :
    0 ≤ ds_shortfall total pcts ∧ ds_shortfall total pcts ≤ pcts.length := by
  obtain ⟨hlo, hhi⟩ := ds_floored_sum_bounds total pcts hsum
  have hn : ((pcts.length : ℚ)) ≤ 100000 := by exact_mod_cast hlen
  have hn0 : (0:ℚ) ≤ (pcts.length : ℚ) := by positivity
  have hT1 : total * 10 - 1/2 ≤ ((ds_targetTenths total : ℤ) : ℚ) := by
    rw [ds_targetTenths_eq]; exact le_pyRound _
  have hT2 : ((ds_targetTenths total : ℤ) : ℚ) ≤ total * 10 + 1/2 := by
    rw [ds_targetTenths_eq]; exact pyRound_le _
  set Sq : ℚ := (((ds_flooredTenths total pcts).sum : ℤ) : ℚ) with hSq
  set Tq : ℚ := ((ds_targetTenths total : ℤ) : ℚ) with hTq
  constructor
  · have hq : (-1 : ℚ) < Tq - Sq := by linarith
    rw [hSq, hTq] at hq
    have h2 : (-1 : ℤ) < ds_targetTenths total
        - (ds_flooredTenths total pcts).sum := by exact_mod_cast hq
    unfold ds_shortfall
    omega
  · have hq : Tq - Sq < (pcts.length : ℚ) + 1 := by linarith
    rw [hSq, hTq] at hq
    have h2 : ds_targetTenths total - (ds_flooredTenths total pcts).sum
        < (pcts.length : ℤ) + 1 := by exact_mod_cast hq
    unfold ds_shortfall
    omega

/-- C1: for every non-negative total and every list of non-negative period
shares summing to 1 (of any realistic length; the bound 100000 covers every
configured period count and is needed only because the source pre-rounds
tenth-values to 6 decimal digits), the period values returned by
PredictionEngine._distribute_score sum exactly to round(total, 1). -/
theorem C1_distribute_score_sum (total : ℚ) (pcts : List ℚ)
    (htot : 0 ≤ total) (hp : ∀ p ∈ pcts, 0 ≤ p)
    (hsum : pcts.sum = 1) (hlen : pcts.length ≤ 100000) :
    (distribute_score total pcts).sum = pyRoundTo total 1 := by
  obtain ⟨h0, h1⟩ := ds_shortfall_bounds total pcts hsum hlen
  have hflen : (ds_flooredTenths total pcts).length = pcts.length := by
    rw [ds_flooredTenths_eq]; simp
  have hrlen : (ds_remainders total pcts).length = pcts.length := by
    unfold ds_remainders ds_raw; simp
  have hperm : (ds_order total pcts).Perm
      (List.range (ds_remainders total pcts).length) := by
    unfold ds_order
    exact List.mergeSort_perm _ _
  have holen : (ds_order total pcts).length = pcts.length := by
    rw [hperm.length_eq, List.length_range, hrlen]
  have hmem : ∀ i ∈ ds_order total pcts, i < pcts.length := by
    intro i hi
    have := (hperm.mem_iff).mp hi
    rw [List.mem_range, hrlen] at this
    exact this
  have hdist : (if 0 < ds_shortfall total pcts then
      ((ds_order total pcts).take (ds_shortfall total pcts).toNat).foldl
        (fun acc i => List.modify (fun v => v + 1) i acc)
        (ds_flooredTenths total pcts)
    else ds_flooredTenths total pcts).sum = ds_targetTenths total := by
    split
    · have htk : ∀ i ∈ (ds_order total pcts).take (ds_shortfall total pcts).toNat,
          i < (ds_flooredTenths total pcts).length := by
        intro i hi
        rw [hflen]
        exact hmem i (List.mem_of_mem_take hi)
      rw [sum_foldl_modify _ _ htk]
      have hlen2 : ((ds_order total pcts).take
          (ds_shortfall total pcts).toNat).length
            = (ds_shortfall total pcts).toNat := by
        rw [List.length_take, holen]
        have : (ds_shortfall total pcts).toNat ≤ pcts.length := by
          rw [Int.toNat_le]
          exact_mod_cast h1
        omega
      rw [hlen2]
      have : ((ds_shortfall total pcts).toNat : ℤ) = ds_shortfall total pcts :=
        Int.toNat_of_nonneg h0
      unfold ds_shortfall at this ⊢
      omega
    · rename_i hneg
      have : ds_shortfall total pcts = 0 := by omega
      unfold ds_shortfall at this
      omega
  have hone : ∀ v : ℤ, pyRoundTo ((v : ℚ) / 10) 1 = (v : ℚ) / 10 := by
    intro v
    unfold pyRoundTo
    rw [pow_one, div_mul_cancel₀ _ (by norm_num : (10:ℚ) ≠ 0), pyRound_intCast]
  have hmap : ∀ l : List ℤ,
      (l.map (fun v : ℤ => pyRoundTo ((v : ℚ) / 10) 1)).sum = (l.sum : ℚ) / 10 := by
    intro l
    induction l with
    | nil => simp
    | cons a t ih =>
      rw [List.map_cons, List.sum_cons, hone, ih, List.sum_cons, Int.cast_add]
      ring
  have hunfold : distribute_score total pcts
      = ((if 0 < ds_shortfall total pcts then
          ((ds_order total pcts).take (ds_shortfall total pcts).toNat).foldl
            (fun acc i => List.modify (fun v => v + 1) i acc)
            (ds_flooredTenths total pcts)
        else ds_flooredTenths total pcts).map
          (fun v : ℤ => pyRoundTo ((v : ℚ) / 10) 1)) := rfl
  rw [hunfold, hmap, hdist, ds_targetTenths_eq]
  unfold pyRoundTo
  rw [pow_one]

/-- Witness for C1: Scenario B of the specification.  A home total of 100
with shares A = 0.30, 0.30, 0.20, 0.20 allocates periods summing exactly to
100.0, and an away total of 99 with uniform shares 0.25 sums exactly to
99.0. -/
theorem C1_distribute_score_sum_witness :
    (distribute_score 100 [3/10, 3/10, 1/5, 1/5]).sum = 100 ∧
    (distribute_score 99 [1/4, 1/4, 1/4, 1/4]).sum = 99 := by
  have hb1 := C1_distribute_score_sum 100 [3/10, 3/10, 1/5, 1/5]
    (by norm_num) (by intro p hp; fin_cases hp <;> norm_num)
    (by norm_num) (by norm_num)
  have hb2 := C1_distribute_score_sum 99 [1/4, 1/4, 1/4, 1/4]
    (by norm_num) (by intro p hp; fin_cases hp <;> norm_num)
    (by norm_num) (by norm_num)
  have h100 : pyRoundTo (100 : ℚ) 1 = 100 := by
    have hc : (100 : ℚ) * 10 ^ 1 = ((1000 : ℤ) : ℚ) := by norm_num
    unfold pyRoundTo
    rw [hc, pyRound_intCast]
    norm_num
  have h99 : pyRoundTo (99 : ℚ) 1 = 99 := by
    have hc : (99 : ℚ) * 10 ^ 1 = ((990 : ℤ) : ℚ) := by norm_num
    unfold pyRoundTo
    rw [hc, pyRound_intCast]
    norm_num
  rw [h100] at hb1
  rw [h99] at hb2
  exact ⟨hb1, hb2⟩

/-! ## C4: score derivation in predict_game -/

/-- C4: in predict_game the predicted total is the sum of the two raw
regressor outputs floored at 0 and the spread is the calibrated logit of
the clamped probability (both by the definitions above); the favourite
(home exactly when the probability is at least one half) strictly leads the
final integer scores, a rounded tie or wrong-direction result is resolved
by setting the favourite exactly one above the other side, and the returned
spread and total are recomputed as home minus away and home plus away of
the final integers. -/
theorem C4_predict_game_scores (cal rawHome rawAway p : ℝ) :
    ((0.5:ℝ) ≤ p → (derive_scores cal rawHome rawAway p).away
      < (derive_scores cal rawHome rawAway p).home) ∧
    (p < (0.5:ℝ) → (derive_scores cal rawHome rawAway p).home
      < (derive_scores cal rawHome rawAway p).away) ∧
    ((0.5:ℝ) ≤ p →
      rounded_home cal rawHome rawAway p ≤ rounded_away cal rawHome rawAway p →
      (derive_scores cal rawHome rawAway p).home
        = (derive_scores cal rawHome rawAway p).away + 1) ∧
    (p < (0.5:ℝ) →
      rounded_away cal rawHome rawAway p ≤ rounded_home cal rawHome rawAway p →
      (derive_scores cal rawHome rawAway p).away
        = (derive_scores cal rawHome rawAway p).home + 1) ∧
    (derive_scores cal rawHome rawAway p).spread
      = ((derive_scores cal rawHome rawAway p).home : ℝ)
        - ((derive_scores cal rawHome rawAway p).away : ℝ) ∧
    (derive_scores cal rawHome rawAway p).total
      = ((derive_scores cal rawHome rawAway p).home : ℝ)
        + ((derive_scores cal rawHome rawAway p).away : ℝ) := by
  by_cases hp : (0.5:ℝ) ≤ p
  · by_cases hb : rounded_home cal rawHome rawAway p
        ≤ rounded_away cal rawHome rawAway p
    · simp only [derive_scores, if_pos hp, if_pos hb]
      refine ⟨fun _ => by omega, fun h => absurd hp (not_le.mpr h),
        fun _ _ => by trivial, fun h => absurd hp (not_le.mpr h), ?_, ?_⟩ <;> push_cast <;> ring
    · simp only [derive_scores, if_pos hp, if_neg hb]
      refine ⟨fun _ => by omega, fun h => absurd hp (not_le.mpr h),
        fun _ hc => absurd hc hb, fun h => absurd hp (not_le.mpr h), ?_, ?_⟩
        <;> push_cast <;> ring
  · have hp2 : p < (0.5:ℝ) := not_le.mp hp
    by_cases hb : rounded_away cal rawHome rawAway p
        ≤ rounded_home cal rawHome rawAway p
    · simp only [derive_scores, if_neg hp, if_pos hb]
      refine ⟨fun h => absurd h hp, fun _ => by omega,
        fun h => absurd h hp, fun _ _ => by trivial, ?_, ?_⟩ <;> push_cast <;> ring
    · simp only [derive_scores, if_neg hp, if_neg hb]
      refine ⟨fun h => absurd h hp, fun _ => by omega,
        fun h => absurd h hp, fun _ hc => absurd hc hb, ?_, ?_⟩
        <;> push_cast <;> ring

/-- Witness for C4 at a concrete input: with probability one half the home
side is the implied favourite, both raw scores zero round to a tie, and the
bump makes the home score exactly one above the away score. -/
theorem C4_predict_game_scores_witness :
    (derive_scores 10 0 0 (1/2)).away < (derive_scores 10 0 0 (1/2)).home ∧
    (derive_scores 10 0 0 (1/2)).spread
      = ((derive_scores 10 0 0 (1/2)).home : ℝ)
        - ((derive_scores 10 0 0 (1/2)).away : ℝ) := by
  have h := C4_predict_game_scores 10 0 0 (1/2)
  exact ⟨h.1 (by norm_num), h.2.2.2.2.1⟩

/-! ## C6: season-boundary regression -/

/-- C6: when calculate_all_elos meets a game whose season differs from the
season tracked from the immediately preceding chronological game, every
rating is replaced by regression times the rating plus one minus regression
times 1500 before the game is processed; equivalently each new rating sits
at exactly regression times the old signed distance from 1500.  The season
tracker always carries the season of the game just processed. -/
theorem C6_season_boundary_regression (p : EloParams) (st : EloState)
    (g : GameRec) (s : ℤ) (hcs : st.currentSeason = some s)
    (hne : g.season ≠ s) :
    (∀ t, (applySeasonBoundary p st g).elos t
      = p.seasonRegression * st.elos t + (1 - p.seasonRegression) * 1500) ∧
    (∀ t, (applySeasonBoundary p st g).elos t - 1500
      = p.seasonRegression * (st.elos t - 1500)) ∧
    (eloStep p st g).currentSeason = some g.season := by
  have helos : (applySeasonBoundary p st g).elos
      = fun t => season_reset p (st.elos t) := by
    unfold applySeasonBoundary
    rw [hcs]
    simp [hne]
  refine ⟨?_, ?_, ?_⟩
  · intro t
    rw [helos]
    unfold season_reset
    ring
  · intro t
    rw [helos]
    unfold season_reset
    ring
  · unfold eloStep
    cases hh : g.homeScore <;> cases ha : g.awayScore <;>
      simp [applySeasonBoundary]

/-- Witness for C6: a boundary from season 2022 to season 2023 with every
team at 1600 regresses each rating to 1575, three quarters of the distance
kept. -/
theorem C6_season_boundary_regression_witness :
    (applySeasonBoundary nbaElo ⟨fun _ => 1600, some 2022, []⟩
      ⟨1, 2023, 50, 1, 2, some 100, some 90, "Final"⟩).elos 1 = 1575 := by
  have h := C6_season_boundary_regression nbaElo
    ⟨fun _ => 1600, some 2022, []⟩
    ⟨1, 2023, 50, 1, 2, some 100, some 90, "Final"⟩ 2022 rfl (by norm_num)
  rw [h.1 1]
  show (0.75:ℝ) * 1600 + (1 - 0.75) * 1500 = 1575
  norm_num

/-! ## C2: Scenario A of the rating engine -/

theorem calculate_expected_symm (a b : ℝ) :
    calculate_expected a b + calculate_expected b a = 1 := by
  unfold calculate_expected
  have hx : (0:ℝ) < (10:ℝ) ^ ((b - a) / 400) :=
    Real.rpow_pos_of_pos (by norm_num) _
  have hexp : (a - b) / 400 = -((b - a) / 400) := by ring
  rw [hexp, Real.rpow_neg (by norm_num : (0:ℝ) ≤ 10)]
  field_simp
  ring

theorem calculate_expected_pos (a b : ℝ) : 0 < calculate_expected a b := by
  unfold calculate_expected
  have hx : (0:ℝ) < (10:ℝ) ^ ((b - a) / 400) :=
    Real.rpow_pos_of_pos (by norm_num) _
  positivity

theorem calculate_expected_lt_one (a b : ℝ) : calculate_expected a b < 1 := by
  unfold calculate_expected
  have hx : (0:ℝ) < (10:ℝ) ^ ((b - a) / 400) :=
    Real.rpow_pos_of_pos (by norm_num) _
  rw [div_lt_one (by linarith)]
  linarith

theorem lt_root {y c a : ℝ} {n : ℕ} (hy : 0 ≤ y) (hyn : y ^ n = c)
    (ha : 0 ≤ a) (hac : a ^ n < c) : a < y := by
  by_contra h
  push_neg at h
  have := pow_le_pow_left hy h n
  rw [hyn] at this
  linarith

theorem root_lt {y c b : ℝ} {n : ℕ} (hy : 0 ≤ y) (hyn : y ^ n = c)
    (hb : 0 ≤ b) (hcb : c < b ^ n) : y < b := by
  by_contra h
  push_neg at h
  have := pow_le_pow_left hb h n
  rw [hyn] at this
  linarith

theorem ten_rpow_316_pow : ((10:ℝ) ^ ((3:ℝ)/16)) ^ (16:ℕ) = 1000 := by
  rw [← Real.rpow_natCast ((10:ℝ) ^ ((3:ℝ)/16)) 16,
    ← Real.rpow_mul (by norm_num : (0:ℝ) ≤ 10)]
  have h3 : ((3:ℝ)/16) * ((16:ℕ) : ℝ) = ((3:ℕ) : ℝ) := by push_cast; ring
  rw [h3, Real.rpow_natCast]
  norm_num

theorem ten_rpow_316_bounds :
    (3/2 : ℝ) < (10:ℝ) ^ ((3:ℝ)/16) ∧ (10:ℝ) ^ ((3:ℝ)/16) < 39/25 := by
  have hy : (0:ℝ) ≤ (10:ℝ) ^ ((3:ℝ)/16) :=
    le_of_lt (Real.rpow_pos_of_pos (by norm_num) _)
  constructor
  · exact lt_root hy ten_rpow_316_pow (by norm_num) (by norm_num)
  · exact root_lt hy ten_rpow_316_pow (by norm_num) (by norm_num)

theorem thirteen_rpow_08_pow : ((13:ℝ) ^ ((0.8:ℝ))) ^ (5:ℕ) = 28561 := by
  rw [← Real.rpow_natCast ((13:ℝ) ^ ((0.8:ℝ))) 5,
    ← Real.rpow_mul (by norm_num : (0:ℝ) ≤ 13)]
  have h4 : ((0.8:ℝ)) * ((5:ℕ) : ℝ) = ((4:ℕ) : ℝ) := by push_cast; norm_num
  rw [h4, Real.rpow_natCast]
  norm_num

theorem thirteen_rpow_08_bounds :
    (621/80 : ℝ) < (13:ℝ) ^ ((0.8:ℝ)) ∧ (13:ℝ) ^ ((0.8:ℝ)) < 39/5 := by
  have hz : (0:ℝ) ≤ (13:ℝ) ^ ((0.8:ℝ)) :=
    le_of_lt (Real.rpow_pos_of_pos (by norm_num) _)
  constructor
  · exact lt_root hz thirteen_rpow_08_pow (by norm_num) (by norm_num)
  · exact root_lt hz thirteen_rpow_08_pow (by norm_num) (by norm_num)

theorem expected_1575_bounds :
    (3/5 : ℝ) < calculate_expected 1575 1500
      ∧ calculate_expected 1575 1500 < 61/100 := by
  obtain ⟨hy1, hy2⟩ := ten_rpow_316_bounds
  have hy0 : (0:ℝ) < (10:ℝ) ^ ((3:ℝ)/16) := by linarith
  have hexp : ((1500:ℝ) - 1575) / 400 = -((3:ℝ)/16) := by norm_num
  have hxinv : (10:ℝ) ^ (((1500:ℝ) - 1575) / 400)
      = ((10:ℝ) ^ ((3:ℝ)/16))⁻¹ := by
    rw [hexp, Real.rpow_neg (by norm_num : (0:ℝ) ≤ 10)]
  have hx1 : ((10:ℝ) ^ ((3:ℝ)/16))⁻¹ < 2/3 := by
    have := inv_lt_inv_of_lt (by norm_num : (0:ℝ) < 3/2) hy1
    calc ((10:ℝ) ^ ((3:ℝ)/16))⁻¹ < ((3:ℝ)/2)⁻¹ := this
      _ = 2/3 := by norm_num
  have hx2 : (25/39 : ℝ) < ((10:ℝ) ^ ((3:ℝ)/16))⁻¹ := by
    have := inv_lt_inv_of_lt hy0 hy2
    calc (25/39 : ℝ) = ((39:ℝ)/25)⁻¹ := by norm_num
      _ < ((10:ℝ) ^ ((3:ℝ)/16))⁻¹ := this
  have hx0 : (0:ℝ) < ((10:ℝ) ^ ((3:ℝ)/16))⁻¹ := by positivity
  unfold calculate_expected
  rw [hxinv]
  constructor
  · rw [lt_div_iff (by linarith)]
    linarith
  · rw [div_lt_iff (by linarith)]
    linarith

theorem kfac_eq : k_factor nbaElo 10 0 = 20 * (13:ℝ) ^ ((0.8:ℝ)) / 7.5 := by
  unfold k_factor nbaElo
  norm_num

theorem kfac_bounds :
    (207/10 : ℝ) < k_factor nbaElo 10 0 ∧ k_factor nbaElo 10 0 < 104/5 := by
  obtain ⟨hz1, hz2⟩ := thirteen_rpow_08_bounds
  constructor
  · rw [kfac_eq, lt_div_iff₀ (by norm_num : (0:ℝ) < 7.5)]
    nlinarith [hz1]
  · rw [kfac_eq, div_lt_iff₀ (by norm_num : (0:ℝ) < 7.5)]
    nlinarith [hz2]

theorem upd_eq : update_elo nbaElo 1500 1500 110 100
    = (1500 + k_factor nbaElo 10 0 * (1 - calculate_expected 1575 1500),
       1500 + k_factor nbaElo 10 0 * (0 - calculate_expected 1500 1575)) := by
  unfold update_elo
  norm_num [nbaElo]

theorem upd_home_gt : (1500:ℝ) < (update_elo nbaElo 1500 1500 110 100).1 := by
  rw [upd_eq]
  have hk := kfac_bounds
  have hE := expected_1575_bounds
  have hpos : (0:ℝ) < k_factor nbaElo 10 0 * (1 - calculate_expected 1575 1500) := by
    apply mul_pos <;> [linarith [hk.1]; linarith [hE.2]]
  simpa using by linarith

theorem upd_away_lt : (update_elo nbaElo 1500 1500 110 100).2 < 1500 := by
  rw [upd_eq]
  have hk := kfac_bounds
  have hE := calculate_expected_pos 1500 1575
  have hpos : (0:ℝ) < k_factor nbaElo 10 0 * calculate_expected 1500 1575 :=
    mul_pos (by linarith [hk.1]) hE
  simpa using by linarith

theorem upd_zero_sum :
    (update_elo nbaElo 1500 1500 110 100).1 - 1500
      = 1500 - (update_elo nbaElo 1500 1500 110 100).2 := by
  have hsymm := calculate_expected_symm 1575 1500
  have hE2 : calculate_expected 1500 1575
      = 1 - calculate_expected 1575 1500 := by linarith
  rw [upd_eq]
  show 1500 + k_factor nbaElo 10 0 * (1 - calculate_expected 1575 1500) - 1500
      = 1500 - (1500 + k_factor nbaElo 10 0 * (0 - calculate_expected 1500 1575))
  rw [hE2]
  ring

/-- C2 counterexample: with both teams at 1500, home advantage 75 and
K_base 20 (the NBA configuration) and a 110 to 100 home win, the expected
home win probability computed by the code is near 0.606, not near 0.511,
and the K-factor is K_base times 13^0.8 over 7.5 (the rating difference is
0, so the denominator term 0.006 times 75 of the claim never appears),
about 20.75 rather than about 41.4. -/
theorem C2_scenarioA_claim_false :
    ¬ (|calculate_expected (1500 + nbaElo.homeAdvantage) 1500 - 0.511| ≤ 1/100) ∧
    k_factor nbaElo 10 0
      ≠ nbaElo.kBase * (13:ℝ) ^ ((0.8:ℝ)) / (7.5 + 0.006 * 75) ∧
    ¬ (|k_factor nbaElo 10 0 - 41.4| ≤ 1) := by
  have hadv : (1500:ℝ) + nbaElo.homeAdvantage = 1575 := by
    show (1500:ℝ) + 75 = 1575
    norm_num
  have hE := expected_1575_bounds
  have hk := kfac_bounds
  refine ⟨?_, ?_, ?_⟩
  · rw [hadv, not_le]
    have h1 : (1:ℝ)/100 < calculate_expected 1575 1500 - 0.511 := by
      linarith [hE.1]
    calc (1:ℝ)/100 < calculate_expected 1575 1500 - 0.511 := h1
      _ ≤ |calculate_expected 1575 1500 - 0.511| := le_abs_self _
  · have hkb : nbaElo.kBase = (20:ℝ) := rfl
    rw [kfac_eq, hkb]
    intro heq
    have hz : (0:ℝ) < (13:ℝ) ^ ((0.8:ℝ)) :=
      Real.rpow_pos_of_pos (by norm_num) _
    have h75 : (7.5:ℝ) + 0.006 * 75 = 7.95 := by norm_num
    rw [h75] at heq
    have hcontra : (20:ℝ) * (13:ℝ) ^ ((0.8:ℝ)) / 7.5
        - 20 * (13:ℝ) ^ ((0.8:ℝ)) / 7.95 = 0 := by rw [heq]; ring
    ring_nf at hcontra
    linarith [hz, hcontra]
  · rw [not_le]
    have h1 : (1:ℝ) < 41.4 - k_factor nbaElo 10 0 := by linarith [hk.2]
    calc (1:ℝ) < 41.4 - k_factor nbaElo 10 0 := h1
      _ ≤ |41.4 - k_factor nbaElo 10 0| := le_abs_self _
      _ = |k_factor nbaElo 10 0 - 41.4| := abs_sub_comm _ _

/-- C2 amended: at the Scenario A input the expected home win probability
lies strictly between 0.60 and 0.61 (about 0.606), the K-factor equals
K_base times 13^0.8 over 7.5 and lies strictly between 20.7 and 20.8
(about 20.75), the new home rating exceeds 1500, the new away rating is
below 1500, and the two ratings move by exactly the same magnitude in
opposite directions, so their sum stays exactly 3000. -/
theorem C2_scenarioA_amended :
    (3/5 : ℝ) < calculate_expected (1500 + nbaElo.homeAdvantage) 1500 ∧
    calculate_expected (1500 + nbaElo.homeAdvantage) 1500 < 61/100 ∧
    k_factor nbaElo 10 0 = nbaElo.kBase * (13:ℝ) ^ ((0.8:ℝ)) / 7.5 ∧
    (207/10 : ℝ) < k_factor nbaElo 10 0 ∧ k_factor nbaElo 10 0 < 104/5 ∧
    1500 < (update_elo nbaElo 1500 1500 110 100).1 ∧
    (update_elo nbaElo 1500 1500 110 100).2 < 1500 ∧
    (update_elo nbaElo 1500 1500 110 100).1 - 1500
      = 1500 - (update_elo nbaElo 1500 1500 110 100).2 := by
  have hadv : (1500:ℝ) + nbaElo.homeAdvantage = 1575 := by
    show (1500:ℝ) + 75 = 1575
    norm_num
  rw [hadv]
  have hkb : nbaElo.kBase = (20:ℝ) := rfl
  rw [hkb]
  exact ⟨expected_1575_bounds.1, expected_1575_bounds.2, kfac_eq,
    kfac_bounds.1, kfac_bounds.2, upd_home_gt, upd_away_lt, upd_zero_sum⟩

/-! ## C7: games with a missing score -/

/-- C7 counterexample: a game with missing scores is not rating-neutral.
After a 110 to 100 home win in season 2022, processing a second game of
season 2023 whose scores are both missing changes the home team rating,
because the season-boundary regression of lines 116 to 123 runs before the
missing-score check of line 130. -/
theorem C7_nullScore_claim_false :
    (calculate_all_elos nbaElo
        [⟨1, 2022, 0, 1, 2, some 110, some 100, "Final"⟩,
         ⟨2, 2023, 1, 1, 2, none, none, "Final"⟩]).elos 1
      ≠ (calculate_all_elos nbaElo
        [⟨1, 2022, 0, 1, 2, some 110, some 100, "Final"⟩]).elos 1 := by
  have h1 : (calculate_all_elos nbaElo
      [⟨1, 2022, 0, 1, 2, some 110, some 100, "Final"⟩]).elos 1
        = (update_elo nbaElo 1500 1500 110 100).1 := by
    simp [calculate_all_elos, eloStep, applySeasonBoundary, eloInit]
  have h2 : (calculate_all_elos nbaElo
      [⟨1, 2022, 0, 1, 2, some 110, some 100, "Final"⟩,
       ⟨2, 2023, 1, 1, 2, none, none, "Final"⟩]).elos 1
        = season_reset nbaElo ((update_elo nbaElo 1500 1500 110 100).1) := by
    simp [calculate_all_elos, eloStep, applySeasonBoundary, eloInit]
  rw [h1, h2]
  intro heq
  have hgt := upd_home_gt
  have hsr : season_reset nbaElo ((update_elo nbaElo 1500 1500 110 100).1)
      = (0.75:ℝ) * (update_elo nbaElo 1500 1500 110 100).1 + (1 - 0.75) * 1500 := rfl
  rw [hsr] at heq
  norm_num at heq
  linarith

/-- C7 amended: a game missing either final score appends no TeamEloHistory
rows and applies no Elo update in calculate_all_elos, and is skipped
entirely by the rolling-stats replay (no snapshot rows, no history
append); the rating replay still advances its season tracker to the season
of the skipped game, and at a season boundary it still applies the
regression toward 1500 to every rating, which is the only way such a game
can change ratings. -/
theorem C7_nullScore_skip_amended (p : EloParams) (st : EloState)
    (env : RollingEnv) (sport : Sport) (rst : RollState) (g : GameRec)
    (hnull : g.homeScore = none ∨ g.awayScore = none) :
    (eloStep p st g).history = st.history ∧
    (eloStep p st g).currentSeason = some g.season ∧
    ((st.currentSeason = none ∨ st.currentSeason = some g.season) →
      (eloStep p st g).elos = st.elos) ∧
    (eloStep p st g).elos = (applySeasonBoundary p st g).elos ∧
    rollingStep env sport rst g = rst := by
  have hmatch : eloStep p st g = applySeasonBoundary p st g := by
    unfold eloStep
    rcases hnull with h | h
    · rw [h]
    · rw [h]
      cases g.homeScore <;> rfl
  have hroll : rollingStep env sport rst g = rst := by
    unfold rollingStep
    rcases hnull with h | h
    · rw [h]
    · rw [h]
      cases g.homeScore <;> rfl
  refine ⟨?_, ?_, ?_, ?_, hroll⟩
  · rw [hmatch]
    rfl
  · rw [hmatch]
    rfl
  · intro hcs
    rw [hmatch]
    unfold applySeasonBoundary
    rcases hcs with h | h <;> rw [h] <;> simp
  · rw [hmatch]

/-- Witness for C7 amended: a concrete missing-score game leaves the fresh
replay states untouched. -/
theorem C7_nullScore_skip_amended_witness :
    (eloStep nbaElo eloInit ⟨5, 2024, 3, 7, 8, none, none, "Final"⟩).history = [] ∧
    rollingStep ⟨fun _ _ => [], fun _ _ => none⟩ Sport.NFL rollingInit
      ⟨5, 2024, 3, 7, 8, none, none, "Final"⟩ = rollingInit := by
  have h := C7_nullScore_skip_amended nbaElo eloInit
    ⟨fun _ _ => [], fun _ _ => none⟩ Sport.NFL rollingInit
    ⟨5, 2024, 3, 7, 8, none, none, "Final"⟩ (Or.inl rfl)
  exact ⟨h.1, h.2.2.2.2⟩

/-! ## C3: snapshot provenance in the rolling replay -/

theorem rollingStep_null (env : RollingEnv) (sport : Sport) (rst : RollState)
    (g : GameRec) (hnull : g.homeScore = none ∨ g.awayScore = none) :
    rollingStep env sport rst g = rst := by
  unfold rollingStep
  rcases hnull with h | h
  · rw [h]
  · rw [h]
    cases g.homeScore <;> rfl

theorem rollingStep_snaps_sub (env : RollingEnv) (sport : Sport)
    (st : RollState) (g : GameRec) :
    ∀ row ∈ (rollingStep env sport st g).snaps,
      row ∈ st.snaps ∨ (row.asOfDate = g.date ∧ ∃ t, row.histUsed = st.hist t) := by
  intro row hrow
  unfold rollingStep at hrow
  cases hH : g.homeScore with
  | none =>
    rw [hH] at hrow
    exact Or.inl hrow
  | some hs =>
    cases hA : g.awayScore with
    | none =>
      rw [hH, hA] at hrow
      exact Or.inl hrow
    | some as_ =>
      rw [hH, hA] at hrow
      simp only [List.mem_append, List.mem_cons, List.mem_singleton] at hrow
      rcases hrow with h | h | h
      · exact Or.inl h
      · subst h
        exact Or.inr ⟨rfl, g.homeTeamId, rfl⟩
      · rcases h with h | h
        · subst h
          exact Or.inr ⟨rfl, g.awayTeamId, rfl⟩
        · simp at h

theorem rollingStep_hist_sub (env : RollingEnv) (sport : Sport)
    (st : RollState) (g : GameRec) :
    ∀ t, ∀ e ∈ (rollingStep env sport st g).hist t,
      e ∈ st.hist t ∨ e.gameDate = g.date := by
  intro t e he
  unfold rollingStep at he
  cases hH : g.homeScore with
  | none =>
    rw [hH] at he
    exact Or.inl he
  | some hs =>
    cases hA : g.awayScore with
    | none =>
      rw [hH, hA] at he
      exact Or.inl he
    | some as_ =>
      rw [hH, hA] at he
      simp only at he
      split at he
      · rcases List.mem_append.mp he with h2 | h2
        · split at h2
          · rcases List.mem_append.mp h2 with h3 | h3
            · exact Or.inl h3
            · simp only [List.mem_singleton] at h3
              subst h3
              exact Or.inr rfl
          · exact Or.inl h2
        · simp only [List.mem_singleton] at h2
          subst h2
          exact Or.inr rfl
      · split at he
        · rcases List.mem_append.mp he with h2 | h2
          · exact Or.inl h2
          · simp only [List.mem_singleton] at h2
            subst h2
            exact Or.inr rfl
        · exact Or.inl he

theorem rolling_foldl_inv (env : RollingEnv) (sport : Sport)
    (games : List GameRec) (st : RollState)
    (hsorted : games.Pairwise (fun a b => a.date ≤ b.date))
    (hhist : ∀ t, ∀ e ∈ st.hist t, ∀ g ∈ games, e.gameDate ≤ g.date)
    (hsnaps : ∀ row ∈ st.snaps, ∀ e ∈ row.histUsed, e.gameDate ≤ row.asOfDate) :
    ∀ row ∈ (games.foldl (rollingStep env sport) st).snaps,
      ∀ e ∈ row.histUsed, e.gameDate ≤ row.asOfDate := by
  induction games generalizing st with
  | nil => simpa using hsnaps
  | cons g rest ih =>
    rw [List.foldl_cons]
    obtain ⟨hg, hrest⟩ := List.pairwise_cons.mp hsorted
    apply ih (rollingStep env sport st g) hrest
    · intro t e he g2 hg2
      rcases rollingStep_hist_sub env sport st g t e he with h | h
      · exact hhist t e h g2 (List.mem_cons_of_mem g hg2)
      · rw [h]
        exact hg g2 hg2
    · intro row hrow e he
      rcases rollingStep_snaps_sub env sport st g row hrow with h | h
      · exact hsnaps row h e he
      · obtain ⟨hdate, t, hhu⟩ := h
        rw [hhu] at he
        rw [hdate]
        exact hhist t e he g (List.mem_cons_self g rest)

/-- C3 counterexample: with two same-date games of one team, the snapshot
stored at the second game is computed from the first game of that date, so
a contributing game has date equal to, not strictly below, the snapshot
as-of date. -/
theorem C3_no_lookahead_claim_false :
    ¬ (∀ row ∈ (rolling_compute_all ⟨fun _ _ => [], fun _ _ => none⟩ Sport.NFL
        [⟨1, 2022, 5, 1, 2, some 20, some 10, "Final"⟩,
         ⟨2, 2022, 5, 1, 3, some 30, some 25, "Final"⟩]).snaps,
      ∀ e ∈ row.histUsed, e.gameDate < row.asOfDate) := by
  simp only [rolling_compute_all, List.foldl_cons, List.foldl_nil,
    rollingStep, rollingInit]
  simp

/-- C3 amended: for every date-sorted input sequence (equal dates allowed),
every game contributing to a snapshot of compute_all has date at most the
snapshot as-of date and was appended strictly earlier in the replay; the
strict date inequality of the claim holds except between same-date games. -/
theorem C3_no_lookahead_amended (env : RollingEnv) (sport : Sport)
    (games : List GameRec)
    (hsorted : games.Pairwise (fun a b => a.date ≤ b.date)) :
    ∀ row ∈ (rolling_compute_all env sport games).snaps,
      ∀ e ∈ row.histUsed, e.gameDate ≤ row.asOfDate := by
  apply rolling_foldl_inv env sport games rollingInit hsorted
  · intro t e he
    simp [rollingInit] at he
  · intro row hrow
    simp [rollingInit] at hrow

/-- Witness for C3 amended: a concrete sorted two-game sequence in which
every snapshot input has date at most the snapshot as-of date. -/
theorem C3_no_lookahead_amended_witness :
    ((rolling_compute_all ⟨fun _ _ => [], fun _ _ => none⟩ Sport.NFL
        [⟨1, 2022, 3, 1, 2, some 20, some 10, "Final"⟩,
         ⟨2, 2022, 5, 1, 3, some 30, some 25, "Final"⟩]).snaps.all
      (fun row => row.histUsed.all
        (fun e => decide (e.gameDate ≤ row.asOfDate)))) = true := by
  have h := C3_no_lookahead_amended ⟨fun _ _ => [], fun _ _ => none⟩ Sport.NFL
    [⟨1, 2022, 3, 1, 2, some 20, some 10, "Final"⟩,
     ⟨2, 2022, 5, 1, 3, some 30, some 25, "Final"⟩]
    (by norm_num [List.pairwise_cons])
  rw [List.all_eq_true]
  intro row hrow
  rw [List.all_eq_true]
  intro e he
  exact decide_eq_true (h row hrow e he)

/-! ## C9: EWMA and plain-average rolling statistics -/

theorem decayWeighted_enumFrom (decay : ℚ) (l : List ℚ) (k : ℕ) :
    ((List.enumFrom k l).map (fun iv => decay ^ iv.1 * iv.2)).sum
      = decay ^ k * decayWeighted decay l := by
  induction l generalizing k with
  | nil => simp [decayWeighted]
  | cons a rest ih =>
    simp only [List.enumFrom, List.map_cons, List.sum_cons, decayWeighted,
      ih (k + 1), pow_succ]
    ring

theorem decayWeightSum_eq_range (decay : ℚ) (l : List ℚ) :
    ((List.range l.length).map (fun i => decay ^ i)).sum
      = decayWeightSum decay l := by
  induction l with
  | nil => simp [decayWeightSum]
  | cons a rest ih =>
    simp only [List.length_cons, List.range_succ_eq_map, List.map_cons,
      List.sum_cons, List.map_map, decayWeightSum]
    rw [← ih]
    have hmap : ((List.range rest.length).map ((fun i => decay ^ i) ∘ Nat.succ)).sum
        = decay * ((List.range rest.length).map (fun i => decay ^ i)).sum := by
      rw [← List.sum_map_mul_left]
      apply congrArg
      apply List.map_congr_left
      intro i _
      simp [pow_succ]
      ring
    rw [hmap]
    norm_num

theorem ewmaFold_spec (decay : ℚ) (l : List ℚ) (w0 t0 s0 : ℚ) :
    l.foldl (fun acc v => (acc.1 * decay, acc.2.1 + acc.1 * v, acc.2.2 + acc.1))
        (w0, t0, s0)
      = (w0 * decay ^ l.length, t0 + w0 * decayWeighted decay l,
         s0 + w0 * decayWeightSum decay l) := by
  induction l generalizing w0 t0 s0 with
  | nil => simp [decayWeighted, decayWeightSum]
  | cons a rest ih =>
    simp only [List.foldl_cons, ih, decayWeighted, decayWeightSum,
      List.length_cons, Prod.mk.injEq]
    refine ⟨by rw [pow_succ]; ring, by ring, by ring⟩

theorem decayWeightSum_nonneg (decay : ℚ) (hd : 0 ≤ decay) (l : List ℚ) :
    0 ≤ decayWeightSum decay l := by
  induction l with
  | nil => simp [decayWeightSum]
  | cons a rest ih =>
    simp only [decayWeightSum]
    nlinarith

theorem decayWeightSum_pos (decay : ℚ) (hd : 0 ≤ decay) (l : List ℚ)
    (hne : l ≠ []) : 0 < decayWeightSum decay l := by
  cases l with
  | nil => exact absurd rfl hne
  | cons a rest =>
    simp only [decayWeightSum]
    nlinarith [decayWeightSum_nonneg decay hd rest]

theorem ewma_eq_specEwma (values : List ℚ) :
    ewma values = specEwma values (19/20) := by
  unfold ewma specEwma
  by_cases h : values = []
  · simp [h]
  · have hrev : values.reverse ≠ [] := by
      simpa using h
    rw [if_neg h, if_neg h]
    have hf := ewmaFold_spec (19/20) values.reverse 1 0 0
    unfold ewmaFold
    rw [hf]
    have hpos : 0 < decayWeightSum (19/20) values.reverse :=
      decayWeightSum_pos (19/20) (by norm_num) values.reverse hrev
    have hnum : ((values.reverse.enum.map
        (fun iv => (19/20:ℚ) ^ iv.1 * iv.2)).sum)
          = decayWeighted (19/20) values.reverse := by
      have := decayWeighted_enumFrom (19/20) values.reverse 0
      simpa [List.enum] using this
    have hden : (((List.range values.length).map
        (fun i => (19/20:ℚ) ^ i)).sum)
          = decayWeightSum (19/20) values.reverse := by
      rw [← decayWeightSum_eq_range, List.length_reverse]
    rw [hnum, hden]
    rw [if_pos (by simpa using hpos)]
    norm_num

theorem win_pct_10_unfold (history : List HistEntry) (sport : Sport)
    (isHome : Bool) (hne : history ≠ []) :
    (compute_stats_from_history history sport isHome).win_pct_10
      = pyRoundTo (ewma ((lastN 10 history).map
          (fun g => if g.won then (1:ℚ) else 0))) 6 := by
  unfold compute_stats_from_history
  rw [if_neg hne]
  rfl

/-- C9 counterexample: snapshot statistics are stored rounded to 6 decimal
places (lines 243 to 246), so a stored field is in general not exactly the
EWMA: after a loss then a win the stored win_pct_10 is 0.512821, while the
EWMA is 20/39 = 0.512820512... -/
theorem C9_ewma_claim_false :
    (compute_stats_from_history
        ([⟨1, 0, true, 10, 20, false, [], -10⟩,
          ⟨2, 1, true, 20, 10, true, [], 10⟩] : List HistEntry)
        Sport.NFL true).win_pct_10
      ≠ ewma ((lastN 10
        ([⟨1, 0, true, 10, 20, false, [], -10⟩,
          ⟨2, 1, true, 20, 10, true, [], 10⟩] : List HistEntry)).map
          (fun g => if g.won then (1:ℚ) else 0)) := by
  rw [win_pct_10_unfold _ _ _ (by simp)]
  have hwins : (lastN 10
      ([⟨1, 0, true, 10, 20, false, [], -10⟩,
        ⟨2, 1, true, 20, 10, true, [], 10⟩] : List HistEntry)).map
        (fun g => if g.won then (1:ℚ) else 0) = [0, 1] := by
    simp [lastN]
  rw [hwins]
  have he : ewma [(0:ℚ), 1] = 20/39 := by
    unfold ewma ewmaFold
    rw [if_neg (by simp)]
    norm_num
  rw [he]
  have hround : pyRoundTo (20/39 : ℚ) 6 = 512821/1000000 := by
    unfold pyRoundTo pyRound
    rw [if_neg]
    · rw [round_eq]
      norm_num
    · rw [Int.fract]
      norm_num
  rw [hround]
  norm_num

/-- C9 amended: in every snapshot computed from a non-empty history, the
windowed statistics equal the decay 0.95 EWMA of the last 10 or last 20
per-game values rounded to 6 decimal places (the game i places before the
most recent weighted 0.95^i, normalised by the weight sum), and the
venue-specific win rates equal the plain unweighted win fraction over the
last 10 games in that role (one half when there are none), also rounded to
6 decimal places. -/
theorem C9_rolling_stats_amended (history : List HistEntry) (sport : Sport)
    (isHome : Bool) (hne : history ≠ []) :
    (compute_stats_from_history history sport isHome).win_pct_10
      = pyRoundTo (specEwma ((lastN 10 history).map
          (fun g => if g.won then (1:ℚ) else 0)) (19/20)) 6 ∧
    (compute_stats_from_history history sport isHome).win_pct_20
      = pyRoundTo (specEwma ((lastN 20 history).map
          (fun g => if g.won then (1:ℚ) else 0)) (19/20)) 6 ∧
    (compute_stats_from_history history sport isHome).ppg_10
      = pyRoundTo (specEwma ((lastN 10 history).map
          (fun g => (g.scoreFor : ℚ))) (19/20)) 6 ∧
    (compute_stats_from_history history sport isHome).ppg_20
      = pyRoundTo (specEwma ((lastN 20 history).map
          (fun g => (g.scoreFor : ℚ))) (19/20)) 6 ∧
    (compute_stats_from_history history sport isHome).papg_10
      = pyRoundTo (specEwma ((lastN 10 history).map
          (fun g => (g.scoreAgainst : ℚ))) (19/20)) 6 ∧
    (compute_stats_from_history history sport isHome).papg_20
      = pyRoundTo (specEwma ((lastN 20 history).map
          (fun g => (g.scoreAgainst : ℚ))) (19/20)) 6 ∧
    (compute_stats_from_history history sport isHome).margin_avg_10
      = pyRoundTo (specEwma ((lastN 10 history).map
          (fun g => (g.margin : ℚ))) (19/20)) 6 ∧
    (compute_stats_from_history history sport isHome).home_win_pct_10
      = pyRoundTo (if ((lastN 10 history).filter (fun g => g.isHome)).isEmpty
          then 1/2
          else (((((lastN 10 history).filter (fun g => g.isHome)).filter
              (fun g => g.won)).length : ℕ) : ℚ)
            / ((((lastN 10 history).filter (fun g => g.isHome)).length : ℕ) : ℚ)) 6 ∧
    (compute_stats_from_history history sport isHome).away_win_pct_10
      = pyRoundTo (if ((lastN 10 history).filter (fun g => !g.isHome)).isEmpty
          then 1/2
          else (((((lastN 10 history).filter (fun g => !g.isHome)).filter
              (fun g => g.won)).length : ℕ) : ℚ)
            / ((((lastN 10 history).filter (fun g => !g.isHome)).length : ℕ) : ℚ)) 6 := by
  unfold compute_stats_from_history
  rw [if_neg hne]
  simp only [roundStats, ewma_eq_specEwma]
  refine ⟨?_, ?_, ?_, ?_, ?_, ?_, ?_, ?_, ?_⟩ <;> trivial

/-- Witness for C9 amended at a concrete two-game history. -/
theorem C9_rolling_stats_amended_witness :
    (compute_stats_from_history
        ([⟨1, 0, true, 10, 20, false, [], -10⟩,
          ⟨2, 1, true, 20, 10, true, [], 10⟩] : List HistEntry)
        Sport.NFL true).win_pct_10
      = pyRoundTo (specEwma ((lastN 10
          ([⟨1, 0, true, 10, 20, false, [], -10⟩,
            ⟨2, 1, true, 20, 10, true, [], 10⟩] : List HistEntry)).map
            (fun g => if g.won then (1:ℚ) else 0)) (19/20)) 6 :=
  (C9_rolling_stats_amended
    ([⟨1, 0, true, 10, 20, false, [], -10⟩,
      ⟨2, 1, true, 20, 10, true, [], 10⟩] : List HistEntry)
    Sport.NFL true (by simp)).1

/-! ## C10: football turnover margin refinement -/

/-- C10: for the gridiron sports, with non-negative stored opponent
turnover counts (missing keys read as 0) every per-game turnover-margin
value produced by _compute_football_stats equals the plain difference
opp_turnovers minus turnovers: when the stored opponent count is 0 the
fallback branch returns the negated own turnovers, which coincides with
0 minus turnovers, so the availability check never changes the value; the
tov_margin_10 key of the returned map is the EWMA of exactly these
values. -/
theorem C10_tov_margin_refinement (boxes : List (List (String × ℤ)))
    (h : ∀ b ∈ boxes, 0 ≤ dictGetI b "opp_turnovers" 0) :
    tovMarginVals boxes
      = boxes.map (fun b => ((dictGetI b "opp_turnovers" 0
          - dictGetI b "turnovers" 0 : ℤ) : ℚ)) ∧
    (boxes ≠ [] →
      dictGetQ (compute_football_stats boxes) "tov_margin_10" 0
        = ewma (tovMarginVals boxes)) := by
  constructor
  · unfold tovMarginVals
    apply List.map_congr_left
    intro b hb
    have hb2 := h b hb
    by_cases hpos : 0 < dictGetI b "opp_turnovers" 0
    · rw [if_pos hpos]
    · have h0 : dictGetI b "opp_turnovers" 0 = 0 :=
        le_antisymm (not_lt.mp hpos) hb2
      rw [if_neg hpos, h0]
      norm_num
  · intro hne
    unfold compute_football_stats
    rw [if_neg hne]
    unfold dictGetQ
    simp [List.find?]

/-- Witness for C10: two concrete boxscores, one with the opponent
turnovers recorded and one without. -/
theorem C10_tov_margin_refinement_witness :
    tovMarginVals [[("turnovers", 2), ("opp_turnovers", 1)], [("turnovers", 3)]]
      = [-1, -3] := by
  have h := C10_tov_margin_refinement
    [[("turnovers", 2), ("opp_turnovers", 1)], [("turnovers", 3)]]
    (by
      intro b hb
      simp only [List.mem_cons, List.mem_singleton] at hb
      rcases hb with hb | hb | hb
      · subst hb
        simp [dictGetI, List.find?]
      · subst hb
        simp [dictGetI, List.find?]
      · simp at hb)
  rw [h.1]
  simp [dictGetI, List.find?]
  norm_num

/-! ## C8: minimum-games gate of the feature engineer -/

/-- C8: the rolling-stats path returns a snapshot-derived feature mapping
only when both resolved snapshots exist with games_played at least 3; when
either resolved snapshot has games_played below 3 the rolling path yields
nothing and compute_features falls through to the legacy path; and the
legacy path itself returns nothing when either team has fewer than 3
completed prior games. -/
theorem C8_min_games_gate (db : FEDb) (defaultPpg : ℚ) (game : GameRec) :
    (∀ f, compute_features_from_rolling_stats db game = some f →
      ∃ hr ar,
        get_rolling_stats db game.homeTeamId game.date (some game.id) = some hr
        ∧ get_rolling_stats db game.awayTeamId game.date (some game.id) = some ar
        ∧ 3 ≤ hr.gamesPlayed ∧ 3 ≤ ar.gamesPlayed) ∧
    (((∃ hr, get_rolling_stats db game.homeTeamId game.date (some game.id)
          = some hr ∧ hr.gamesPlayed < 3)
      ∨ (∃ ar, get_rolling_stats db game.awayTeamId game.date (some game.id)
          = some ar ∧ ar.gamesPlayed < 3)) →
      compute_features_from_rolling_stats db game = none
        ∧ compute_features db defaultPpg game
          = compute_features_legacy db defaultPpg game) ∧
    (((get_team_last_n_games db game.homeTeamId 10 game.date).length < 3
        ∨ (get_team_last_n_games db game.awayTeamId 10 game.date).length < 3) →
      compute_features_legacy db defaultPpg game = none) := by
  refine ⟨?_, ?_, ?_⟩
  · intro f hf
    unfold compute_features_from_rolling_stats at hf
    cases hH : get_rolling_stats db game.homeTeamId game.date (some game.id) with
    | none => rw [hH] at hf; exact absurd hf (by simp)
    | some hr =>
      cases hA : get_rolling_stats db game.awayTeamId game.date (some game.id) with
      | none => rw [hH, hA] at hf; exact absurd hf (by simp)
      | some ar =>
        rw [hH, hA] at hf
        simp only [] at hf
        by_cases hlt : hr.gamesPlayed < 3 ∨ ar.gamesPlayed < 3
        · rw [if_pos hlt] at hf
          exact absurd hf (by simp)
        · push_neg at hlt
          exact ⟨hr, ar, rfl, rfl, hlt.1, hlt.2⟩
  · intro hlt
    have hnone : compute_features_from_rolling_stats db game = none := by
      unfold compute_features_from_rolling_stats
      rcases hlt with ⟨hr, hHr, h3⟩ | ⟨ar, hAr, h3⟩
      · rw [hHr]
        cases hA : get_rolling_stats db game.awayTeamId game.date (some game.id) with
        | none => rfl
        | some ar =>
          simp only []
          rw [if_pos (Or.inl h3)]
      · cases hH : get_rolling_stats db game.homeTeamId game.date (some game.id) with
        | none => rfl
        | some hr =>
          rw [hAr]
          simp only []
          rw [if_pos (Or.inr h3)]
    refine ⟨hnone, ?_⟩
    unfold compute_features
    rw [hnone]
  · intro hlt
    unfold compute_features_legacy
    cases hH : db.teams.find? (fun t => t.1 == game.homeTeamId) with
    | none => rfl
    | some homeTeam =>
      cases hA : db.teams.find? (fun t => t.1 == game.awayTeamId) with
      | none => rfl
      | some awayTeam =>
        simp only []
        rw [if_pos hlt]

/-- Witness for C8: on an empty database the legacy path has no prior games
for either team and returns nothing, and so does compute_features. -/
theorem C8_min_games_gate_witness :
    compute_features_legacy ⟨[], [], []⟩ 100
      ⟨10, 2022, 50, 1, 2, some 20, some 10, "Final"⟩ = none := by
  have h := C8_min_games_gate ⟨[], [], []⟩ 100
    ⟨10, 2022, 50, 1, 2, some 20, some 10, "Final"⟩
  apply h.2.2
  left
  simp [get_team_last_n_games, sortByDateDesc]

/-! ## C5: the rest-days features -/

/-- C5 evaluation at the failing input: team 1 plays game 10 on day 100 and
its previous game was on day 98, two days earlier.  Both teams have
snapshot rows stored for game 10 (as compute_all stores them, with
as_of_date equal to the game date) with enough games played, so the
rolling-stats path is taken and computes rest_days_home from the resolved
snapshot as-of date, which is the game date itself: the feature comes out
0.0 instead of the 2.0 days since the previous game that the claim (and
the legacy path, second conjunct) prescribe. -/
theorem C5_rest_days_code_eval :
    (compute_features
        ⟨[⟨9, 2022, 98, 1, 2, some 15, some 12, "Final"⟩,
          ⟨10, 2022, 100, 1, 2, some 20, some 10, "Final"⟩],
         [⟨1, 10, 100, 5, []⟩, ⟨2, 10, 100, 4, []⟩],
         [(1, 1500), (2, 1500)]⟩ 100
        ⟨10, 2022, 100, 1, 2, some 20, some 10, "Final"⟩).map
      (fun f => f.rest_days_home) = some 0 ∧
    calc_rest_days 100
      (get_team_last_n_games
        ⟨[⟨9, 2022, 98, 1, 2, some 15, some 12, "Final"⟩,
          ⟨10, 2022, 100, 1, 2, some 20, some 10, "Final"⟩],
         [⟨1, 10, 100, 5, []⟩, ⟨2, 10, 100, 4, []⟩],
         [(1, 1500), (2, 1500)]⟩ 1 10 100) = 2 := by
  constructor
  · simp [compute_features, compute_features_from_rolling_stats,
      get_rolling_stats, List.find?, calc_rest_days_from_dates]
  · simp [get_team_last_n_games, sortByDateDesc, List.filter,
      List.mergeSort_singleton, calc_rest_days]
    norm_num
